import Mathlib

/-!
# Verification of the calendar-valley event pipeline

Shallow embedding of `scripts/merge_events.py` and
`scripts/parse_tech_week_html.py`, together with proofs about the
claims of the specification.

Conventions of the embedding:
* Python strings are Lean `String`s; the ASCII-only string operations
  of the scripts (`.replace`, `.strip`, `.lower`, `.startswith`) are
  re-implemented structurally on the character list so that concrete
  instances can be evaluated by the kernel.  Python's Unicode-aware
  case folding and whitespace classes are modelled by their ASCII
  restrictions, which agree with Python on every string appearing in
  the data files.
* A CSV file is modelled as a `List (List String)`: the list of its
  lines, each line already split into its comma-separated fields.
  The `csv` module's quoting round-trips each field, so this level of
  abstraction is faithful.
* Python dicts produced by `csv.DictReader` are association lists with
  unique keys (`Dict` below); building a dict from `zip(fieldnames, row)`
  keeps the last value for a duplicated key, exactly as `dict(zip(..))`.
* File I/O is modelled by passing `Option` file contents: `none` stands
  for a path that does not exist (or cannot be read).
-/

/-- ASCII lower-casing of one character, as Python's `str.lower` acts on
the ASCII range (the scripts only ever lower-case ASCII event titles). -/
def pyLowerChar (c : Char) : Char := c.toLower

/-- `s.lower()` restricted to ASCII. -/
def pyLower (s : String) : String := ⟨s.data.map pyLowerChar⟩

/-- Python's `str.isspace` characters in the ASCII range. -/
def isPySpace (c : Char) : Bool :=
  c = ' ' || c = '\t' || c = '\n' || c = '\x0d' || c = '\x0b' || c = '\x0c'

/-- `s.strip()` restricted to ASCII whitespace. -/
def pyStrip (s : String) : String :=
  ⟨((s.data.dropWhile isPySpace).reverse.dropWhile isPySpace).reverse⟩

/-- `s.startswith(pre)`. -/
def pyStartsWith (s pre : String) : Bool :=
  s.data.take pre.data.length = pre.data

/-- One pass of Python's `str.replace`: scans the haystack left to right,
replacing each non-overlapping occurrence of the (non-empty) pattern.
The `fuel` argument only makes the recursion structural; it is always
called with enough fuel (one unit per consumed character). -/
def replaceFuel : Nat → List Char → List Char → List Char → List Char
  | 0, hay, _, _ => hay
  | fuel + 1, hay, pat, repl =>
    match hay with
    | [] => []
    | h :: t =>
      if hay.take pat.length = pat then
        repl ++ replaceFuel fuel (hay.drop pat.length) pat repl
      else
        h :: replaceFuel fuel t pat repl

/-- `s.replace(pat, repl)` for a non-empty pattern (the scripts only use
the patterns `"[Tech Week]"` and `" "`).  For an empty pattern the
haystack is returned unchanged (that case never occurs in the source). -/
def pyReplace (s pat repl : String) : String :=
  if pat.data = [] then s
  else ⟨replaceFuel s.data.length s.data pat.data repl.data⟩

/-- Substring test, Python's `pat in hay`. -/
def listContainsSub (pat hay : List Char) : Bool :=
  (List.range (hay.length + 1)).any (fun i => (hay.drop i).take pat.length = pat)

/-- `pat in hay` on strings. -/
def strContainsSub (hay pat : String) : Bool := listContainsSub pat.data hay.data

/-- Value of a decimal digit list, most significant first. -/
def digitsToNat (ds : List Char) : Nat :=
  ds.foldl (fun n c => n * 10 + (c.toNat - 48)) 0

/-- Python's `int(s)` restricted to ASCII decimal literals: optional
surrounding whitespace, optional sign, at least one digit.  (Python also
accepts Unicode digits and `_` separators; neither occurs in the data.) -/
def parseIntStr (s : String) : Option Int :=
  let t := (pyStrip s).data
  let signed : Int × List Char :=
    match t with
    | '-' :: rest => (-1, rest)
    | '+' :: rest => (1, rest)
    | _ => (1, t)
  if signed.2 ≠ [] ∧ signed.2.all Char.isDigit then
    some (signed.1 * (digitsToNat signed.2 : Int))
  else none

/-!
## `difflib.SequenceMatcher` (as used by `similarity`)

`merge_events.similarity` calls
`SequenceMatcher(None, a.lower(), b.lower()).ratio()`.  With `isjunk=None`
and second sequences shorter than 200 characters (event titles), difflib
has no junk and no "popular" elements, so `find_longest_match` is exactly
the dynamic program below and `ratio` is `2*M/T` where `M` is the total
size of the recursively collected matching blocks and `T` the total
length.  The model is exact under that restriction; no claim depends on
a particular ratio value.
-/

/-- Inner loop of `find_longest_match`: for a fixed row `i` (character
`ai = a[i]`), walk the candidate column indices `js` (ascending, already
restricted to `[blo, bhi)`), building the new `j2len` table and updating
the best block.  `old` is the previous row's table (defaulting to 0),
mirroring `j2len.get(j-1, 0)`. -/
def flmJ (ai : Char) (b : List Char) (i : Nat) :
    List Nat → (Nat → Nat) → (Nat → Nat) → Nat × Nat × Nat →
    ((Nat → Nat) × (Nat × Nat × Nat))
  | [], _, new, best => (new, best)
  | j :: js, old, new, best =>
    if b.getD j ' ' = ai then
      let k := (if j = 0 then 0 else old (j - 1)) + 1
      let new' := fun x => if x = j then k else new x
      let best' := if best.2.2 < k then (i + 1 - k, j + 1 - k, k) else best
      flmJ ai b i js old new' best'
    else
      flmJ ai b i js old new best

/-- Outer loop of `find_longest_match` over the row indices `is`
(ascending, restricted to `[alo, ahi)`). -/
def flmRows (a b : List Char) (blo bhi : Nat) :
    List Nat → (Nat → Nat) → Nat × Nat × Nat → Nat × Nat × Nat
  | [], _, best => best
  | i :: is, old, best =>
    let js := (List.range bhi).filter (fun j => blo ≤ j)
    let r := flmJ (a.getD i ' ') b i js old (fun _ => 0) best
    flmRows a b blo bhi is r.1 r.2

/-- `SequenceMatcher.find_longest_match(alo, ahi, blo, bhi)` for the
no-junk case: returns `(i, j, k)`, the longest block `a[i:i+k] == b[j:j+k]`
with the difflib tie-breaking (earliest in `a`, then earliest in `b`). -/
def findLongestMatch (a b : List Char) (alo ahi blo bhi : Nat) : Nat × Nat × Nat :=
  let is := (List.range ahi).filter (fun i => alo ≤ i)
  flmRows a b blo bhi is (fun _ => 0) (alo, blo, 0)

/-- Total matched size of `get_matching_blocks`: recursively split around
the longest match and sum the block sizes.  The `fuel` argument bounds the
recursion depth (each call strictly shrinks the window, so the initial
fuel `|a| + |b| + 1` is always sufficient). -/
def matchBlocksTotal : Nat → List Char → List Char → Nat → Nat → Nat → Nat → Nat
  | 0, _, _, _, _, _, _ => 0
  | fuel + 1, a, b, alo, ahi, blo, bhi =>
    let m := findLongestMatch a b alo ahi blo bhi
    if m.2.2 = 0 then 0
    else
      matchBlocksTotal fuel a b alo m.1 blo m.2.1 + m.2.2 +
        matchBlocksTotal fuel a b (m.1 + m.2.2) ahi (m.2.1 + m.2.2) bhi

/-- `SequenceMatcher.ratio()`: `2*M/T`, and 1 when both sequences are
empty (as `difflib._calculate_ratio` does).  Exact rational arithmetic
stands in for Python floats; no claim depends on the rounding. -/
def seqRatio (a b : List Char) : ℚ :=
  let total := a.length + b.length
  if total = 0 then 1
  else (2 * (matchBlocksTotal (a.length + b.length + 1) a b 0 a.length 0 b.length) : ℚ) / total

/-- `merge_events.similarity(a, b)`: ratio of the lower-cased strings. -/
def similarity (a b : String) : ℚ := seqRatio (pyLower a).data (pyLower b).data

/-!
## Data model of `merge_events.py`
-/

/-- One event row of the interchange CSV shape: the six named fields
`Month, Event, Date, Time (PST), Location, Link`.  The scripts pass these
around as dicts that always carry all six keys; missing keys read as the
empty string through `.get(key, '')`. -/
structure Row where
  month : String
  event : String
  date : String
  time : String
  location : String
  link : String
deriving DecidableEq

/-- A Python dict with string keys and values, as produced by
`csv.DictReader`: an association list with unique keys. -/
abbrev Dict : Type := List (String × String)

/-- `d[k] = v`: replace the value at an existing key, else append. -/
def dictSet (d : Dict) (k v : String) : Dict :=
  if (List.any d (fun p => p.1 = k)) then
    List.map (fun p => if p.1 = k then (k, v) else p) d
  else
    d ++ [(k, v)]

/-- `d.get(k)`: `some` value at the key, `none` when absent. -/
def dictGet (d : Dict) (k : String) : Option String :=
  Option.map Prod.snd (List.find? (fun p => p.1 = k) d)

/-- `dict(zip(fieldnames, fields))`, as `csv.DictReader` builds each row:
the last value wins for a duplicated fieldname. -/
def zipDict (fieldnames fields : List String) : Dict :=
  (List.zip fieldnames fields).foldl (fun d p => dictSet d p.1 p.2) []

/-- The literal header row `Month,Event,Date,Time (PST),Location,Link`. -/
def headerFields : List String :=
  ["Month", "Event", "Date", "Time (PST)", "Location", "Link"]

/-- A `Row` as the dict `csv.DictReader` would yield for it under the
standard header. -/
def rowToDict (r : Row) : Dict :=
  [("Month", r.month), ("Event", r.event), ("Date", r.date),
   ("Time (PST)", r.time), ("Location", r.location), ("Link", r.link)]

/-- The row-processing loop of `read_csv` (lines 39-58): track the running
month, substitute it into rows with a blank month, and drop rows whose
`Event` is missing/empty, starts with `"Submit an event"`, or strips to
`""` or `"Cerebral Valley"`.  `cm` is `current_month`. -/
def readLoop : List Dict → String → List Dict
  | [], _ => []
  | r :: rs, cm =>
    let m := Option.getD (dictGet r "Month") ""
    let r' := if m ≠ "" then r else if cm ≠ "" then dictSet r "Month" cm else r
    let cm' := if m ≠ "" then m else cm
    let ev := Option.getD (dictGet r' "Event") ""
    let discard : Bool :=
      ev = "" || pyStartsWith ev "Submit an event" ||
        (pyStrip ev = "" || pyStrip ev = "Cerebral Valley")
    (if discard then [] else [r']) ++ readLoop rs cm'

/-- `read_csv(filename)`.  The file is passed as `some lines` (the parsed
line/field matrix) or `none` when `os.path.exists` fails.  `published`
models the filename heuristic `'public/events' in filename or
'events_backup' in filename`: in that shape the first five lines are
skipped and the next line is taken as the `DictReader` header; otherwise
every line is data under the fixed fieldnames. -/
def read_csv (file : Option (List (List String))) (published : Bool) : List Dict :=
  match file with
  | none => []
  | some lines =>
    if published then
      match lines.drop 5 with
      | [] => []
      | header :: body => readLoop (body.map (zipDict header)) ""
    else
      readLoop (lines.map (zipDict headerFields)) ""

/-- Title cleaning used by the duplicate predicate:
`name.replace('[Tech Week]', '').strip()`. -/
def clean_name (s : String) : String := pyStrip (pyReplace s "[Tech Week]" "")

/-- Default similarity threshold of `is_duplicate` (Python's `0.8`). -/
def defaultThreshold : ℚ := 4 / 5

/-- `is_duplicate(event1, event2, threshold)`: exact case-insensitive
match of the cleaned names, else similarity against the threshold. -/
def is_duplicate (e1 e2 : Row) (threshold : ℚ) : Bool :=
  let n1 := clean_name e1.event
  let n2 := clean_name e2.event
  if pyLower n1 = pyLower n2 then true
  else decide (threshold ≤ similarity n1 n2)

/-- The merge core of `merge_events` (lines 89-122): keep every existing
row, then append each candidate that matches no existing row.  The inner
`for cv_event in cv_events: if is_duplicate(...): break` loop is `List.any`
over the existing rows. -/
def merge_events (cv_events tw_events : List Row) : List Row :=
  cv_events ++
    tw_events.filter
      (fun tw => !(cv_events.any (fun cv => is_duplicate tw cv defaultThreshold)))

/-- `skipped_count`: the number of candidates classified as duplicates. -/
def duplicates_found (cv_events tw_events : List Row) : Nat :=
  (tw_events.filter
      (fun tw => cv_events.any (fun cv => is_duplicate tw cv defaultThreshold))).length

/-- `months_order.get(month, 1)` from `sort_events`. -/
def months_order (m : String) : Nat :=
  Option.getD
    (List.lookup m
      [("January", 1), ("February", 2), ("March", 3), ("April", 4),
       ("May", 5), ("June", 6), ("July", 7), ("August", 8),
       ("September", 9), ("October", 10), ("November", 11), ("December", 12)])
    1

/-- First maximal run of decimal digits in a character list, if any:
`re.search(r'\d+', s)`. -/
def firstDigitRun : List Char → Option (List Char)
  | [] => none
  | c :: rest =>
    if c.isDigit then some (c :: rest.takeWhile Char.isDigit)
    else firstDigitRun rest

/-- Day number from a `Date` field: the first integer substring, else 1. -/
def dayOfDate (s : String) : Nat :=
  match firstDigitRun s.data with
  | some ds => digitsToNat ds
  | none => 1

/-- `get_sort_key(event)`: month number (default January) and the first
integer found in the date string (default 1). -/
def get_sort_key (e : Row) : Nat × Nat := (months_order e.month, dayOfDate e.date)

/-- Non-strict lexicographic order on sort keys, the order `sorted`
applies to the key tuples. -/
def keyLe (a b : Nat × Nat) : Bool :=
  Nat.blt a.1 b.1 || (Nat.beq a.1 b.1 && Nat.ble a.2 b.2)

/-- Stable insertion of `x` in front of the first element not below it. -/
def insertSorted (le : Row → Row → Bool) (x : Row) : List Row → List Row
  | [] => [x]
  | y :: ys => if le x y then x :: y :: ys else y :: insertSorted le x ys

/-- Stable sort by a non-strict comparison.  Python's `sorted` is a
stable sort, and for a total preorder the stable sort of a list is
unique, so stable insertion sort computes exactly `sorted`'s result. -/
def stableSort (le : Row → Row → Bool) : List Row → List Row
  | [] => []
  | x :: xs => insertSorted le x (stableSort le xs)

/-- `sort_events(events)`: stable sort by `get_sort_key`. -/
def sort_events (events : List Row) : List Row :=
  stableSort (fun a b => keyLe (get_sort_key a) (get_sort_key b)) events

/-- The six banner lines `write_output_csv` emits before the header,
each split into its comma-separated fields. -/
def bannerLines : List (List String) :=
  [["u", "", "", "", "", ""],
   ["", "Submit an event! ", "Cerebral Valley", "", "", ""],
   ["", "", "Join our Slack Community", "", "", ""],
   ["", "📧 Subscribe to the Events Newsletter", "New York", "London", "Seattle", ""],
   ["", "📧 DM Cerebral Valley on Twitter", "Click to see 2025 Hackathons!", "", "Boston", ""],
   ["", "🐛 Submit issue: github.com/mikezucc/calendar-valley", "", "", "", ""]]

/-- The event-row loop of `write_output_csv` (lines 166-188): run-length
encode the month column against the running `current_month` (initially
Python `None`, modelled as `none`). -/
def rleRows : List Row → Option String → List (List String)
  | [], _ => []
  | e :: es, cur =>
    let hit := e.month ≠ "" ∧ some e.month ≠ cur
    let disp := if hit then e.month else ""
    let cur' := if hit then some e.month else cur
    [disp, e.event, e.date, e.time, e.location, e.link] :: rleRows es cur'

/-- `write_output_csv(events)`: sort, then emit the six banner lines, the
header row, and the run-length-encoded event rows. -/
def write_output_csv (events : List Row) : List (List String) :=
  bannerLines ++ headerFields :: rleRows (sort_events events) none

/-!
## Data model of `parse_tech_week_html.py`

The BeautifulSoup element probes (`find`, `find_all`, `get_text`,
attribute access, entity unescaping) are abstracted away: an
`EventContainer` carries exactly what the probes of `parse_event_item`
would deliver for one `calendar-events-item` element — the (unescaped,
stripped) name and hosts texts, the visibility-checked sponsored flag,
the `text-size-12` fragments of the `date-wrapper` (with their
invisibility mark), the `event-link` href if present, and the
neighborhood text if present.  Everything downstream of the probes is
translated directly from the source.
-/

/-- One `text-size-12` fragment of the date wrapper: its stripped text
and whether its class list contains `w-condition-invisible`. -/
structure Frag where
  invisible : Bool
  text : String
deriving DecidableEq

/-- The fragment filter of `parse_event_item` (lines 78-85): drop
invisible fragments, empty texts, the bullet `·` and the literal
`Sponsored`. -/
def filterDateTexts (frags : List Frag) : List String :=
  (frags.filter
      (fun f => !f.invisible && (f.text ≠ "" && (f.text ≠ "·" && f.text ≠ "Sponsored")))).map
    Frag.text

/-- The twelve recognized three-letter month abbreviations. -/
def monthAbbrevs : List String :=
  ["Jan", "Feb", "Mar", "Apr", "May", "Jun",
   "Jul", "Aug", "Sep", "Oct", "Nov", "Dec"]

/-- `month_map.get(month, month)`: expand a short month name, pass
unrecognized tokens through unchanged. -/
def month_map (m : String) : String :=
  Option.getD
    (List.lookup m
      [("Jan", "January"), ("Feb", "February"), ("Mar", "March"),
       ("Apr", "April"), ("May", "May"), ("Jun", "June"),
       ("Jul", "July"), ("Aug", "August"), ("Sep", "September"),
       ("Oct", "October"), ("Nov", "November"), ("Dec", "December")])
    m

/-- `'am' in text.lower() or 'pm' in text.lower()`. -/
def containsAmPm (s : String) : Bool :=
  strContainsSub (pyLower s) "am" || strContainsSub (pyLower s) "pm"

/-- State of the fragment scan of `parse_event_item` (lines 98-109):
the last recognized month, the day parsed next to it, and the last
fragment containing `am`/`pm`. -/
structure DateScan where
  month : Option String
  day : Option Int
  time : Option String
deriving DecidableEq

/-- First `if` of the loop body (lines 99-106): a recognized month
abbreviation overwrites `month` and tries to parse the following
fragment (`nxt`) as the day; an `int` failure, or no following
fragment, keeps the previous day. -/
def scanMonth (t : String) (nxt : Option String) (s : DateScan) : DateScan :=
  if t ∈ monthAbbrevs then
    { s with
      month := some t
      day :=
        match nxt with
        | some n =>
          match parseIntStr n with
          | some d => some d
          | none => s.day
        | none => s.day }
  else s

/-- Second `if` of the loop body (lines 107-109): a fragment containing
`am`/`pm` overwrites `time`. -/
def scanTime (t : String) (s : DateScan) : DateScan :=
  if containsAmPm t then { s with time := some t } else s

/-- The fragment scan of `parse_event_item` (lines 98-109): each
fragment in order passes through the month step then the time step. -/
def scanFrags : List String → DateScan → DateScan
  | [], s => s
  | t :: rest, s => scanFrags rest (scanTime t (scanMonth t rest.head? s))

/-- The date/day/time fields `parse_event_item` derives. -/
structure DateFields where
  month : String
  day : String
  date : String
  time : String
deriving DecidableEq

/-- Day/date fields from the scanned day (lines 122-124): `if day_num:`
is Python truthiness, so a zero (or missing) day leaves both fields
empty; otherwise the day is `str(day_num)` and the display date is the
full month name followed by the day. -/
def dayDateOf (full : String) : Option Int → String × String
  | some d => if d ≠ 0 then (toString d, full ++ " " ++ toString d) else ("", "")
  | none => ("", "")

/-- Time field from the scanned time (lines 126-128): `if time:` is
Python truthiness; a found time has its spaces removed. -/
def timeOf : Option String → String
  | some t => if t ≠ "" then pyReplace t " " "" else ""
  | none => ""

/-- The date-wrapper logic of `parse_event_item` (lines 87-128) on the
filtered fragment texts: nothing is extracted unless there are at least
three fragments; the month field receives the *short* abbreviation; the
day and the display date (full month name plus day) are set only for a
truthy (non-zero) day; the time, with spaces removed, is set only when a
month was found, because the whole block is guarded by `if month:`. -/
def parseDateTexts (texts : List String) : DateFields :=
  if 3 ≤ texts.length then
    match (scanFrags texts ⟨none, none, none⟩).month with
    | some m =>
      if m ≠ "" then
        ⟨m,
         (dayDateOf (month_map m) (scanFrags texts ⟨none, none, none⟩).day).1,
         (dayDateOf (month_map m) (scanFrags texts ⟨none, none, none⟩).day).2,
         timeOf (scanFrags texts ⟨none, none, none⟩).time⟩
      else ⟨"", "", "", ""⟩
    | none => ⟨"", "", "", ""⟩
  else ⟨"", "", "", ""⟩

/-- What the element probes of `parse_event_item` deliver for one event
container (see the section comment). -/
structure EventContainer where
  name : String
  hosts : String
  sponsoredVisible : Bool
  dateFrags : Option (List Frag)
  url : Option String
  neighborhood : Option String

/-- The record `parse_event_item` builds (the `event` dict). -/
structure EventRec where
  name : String
  hosts : String
  date : String
  time : String
  location : String
  url : String
  sponsored : Bool
  month : String
  day : String
deriving DecidableEq

/-- `parse_event_item(item)`: assemble the record from the probed
fields, with the default location `San Francisco, CA` refined by a
non-empty neighborhood, and the date fields from the date wrapper.  A
missing date wrapper (`dateFrags = none`) leaves the date fields at
their defaults. -/
def parse_event_item (c : EventContainer) : EventRec :=
  let df : DateFields :=
    match c.dateFrags with
    | some frags => parseDateTexts (filterDateTexts frags)
    | none => ⟨"", "", "", ""⟩
  { name := c.name
    hosts := c.hosts
    date := df.date
    time := df.time
    location :=
      match c.neighborhood with
      | some n => if n ≠ "" then n ++ ", San Francisco, CA" else "San Francisco, CA"
      | none => "San Francisco, CA"
    url := Option.getD c.url ""
    sponsored := c.sponsoredVisible
    month := df.month
    day := df.day }

/-- `parse_tech_week_html(html_file)`: `none` models a path that raises
`FileNotFoundError` (or any other read error) — the handler returns the
empty list; otherwise every container yields a record, kept only when
its name is non-empty. -/
def parse_tech_week_html (file : Option (List EventContainer)) : List EventRec :=
  match file with
  | none => []
  | some items =>
    (items.map parse_event_item).filter (fun e => e.name ≠ "")

/-- The title-attribution step of `format_for_csv` (lines 156-158):
append `" [Tech Week]"` unless the marker already occurs in the title. -/
def attributeTitle (title : String) : String :=
  if strContainsSub title "[Tech Week]" then title else title ++ " [Tech Week]"

/-- The body of `format_for_csv` (lines 151-183): drop records without a
name, attribute the title, expand the month, run-length encode the month
column against the running month, and map to the interchange row shape. -/
def format_for_csv : List EventRec → Option String → List Row
  | [], _ => []
  | e :: es, cur =>
    if e.name = "" then format_for_csv es cur
    else
      let title := attributeTitle e.name
      let m := if e.month ≠ "" then month_map e.month else e.month
      let r : Row :=
        { month := if some m ≠ cur then m else ""
          event := title
          date := e.date
          time := e.time
          location := e.location
          link := e.url }
      r :: format_for_csv es (if m ≠ "" then some m else cur)

/-- The reader's row filter as the amended claim states it: a row is
discarded exactly when its `Event` starts with `"Submit an event"` or
its whitespace-stripped `Event` is empty or equals `"Cerebral Valley"`. -/
def specKeeps (ev : String) : Bool :=
  !(pyStartsWith ev "Submit an event" ||
      (pyStrip ev = "" || pyStrip ev = "Cerebral Valley"))

/-- Reference reader following the words of the amended claim: every row
updates the running month when its own month is non-empty; a kept row
with an empty month inherits the running month; rows are kept according
to `specKeeps`. -/
def readRowsSpec : List Row → String → List Row
  | [], _ => []
  | r :: rs, cm =>
    let m := if r.month ≠ "" then r.month else cm
    let cm' := if r.month ≠ "" then r.month else cm
    (if specKeeps r.event then [{ r with month := m }] else []) ++ readRowsSpec rs cm'

example : pyReplace "a [Tech Week] b [Tech Week]" "[Tech Week]" "" = "a  b " := by rfl

example : clean_name "  AI Meetup [Tech Week] " = "AI Meetup" := by rfl

example : parseDateTexts ["Mon", "Jan", "15", "5 pm"] =
    ⟨"Jan", "15", "January 15", "5pm"⟩ := by rfl

example : parseDateTexts ["Mon", "5 pm", "foo"] = ⟨"", "", "", ""⟩ := by rfl

/-!
## Theorems
-/

theorem length_filter_add_length_filter_not {α : Type} (p : α → Bool) (l : List α) :
    (l.filter p).length + (l.filter (fun x => !(p x))).length = l.length := by
  induction l with
  | nil => rfl
  | cons x xs ih =>
    by_cases h : p x = true <;> simp [List.filter_cons, h] <;> omega

/-- C3: merging keeps every existing row unchanged in place (the output
begins with the existing list), and the output length is the existing
length plus the candidate length minus the number of candidates
classified as duplicates. -/
theorem merge_events_length_and_keeps_existing (cv tw : List Row) :
    (merge_events cv tw).length = cv.length + (tw.length - duplicates_found cv tw)
      ∧ (merge_events cv tw).take cv.length = cv := by
  constructor
  · have h := length_filter_add_length_filter_not
      (fun t => cv.any (fun c => is_duplicate t c defaultThreshold)) tw
    simp only [merge_events, duplicates_found, List.length_append]
    omega
  · simp [merge_events, List.take_left]

/-- C4: when the cleaned titles (attribution marker removed, whitespace
stripped) agree case-insensitively, the duplicate predicate answers true
for every value of the threshold parameter: the exact-match branch fires
before the similarity ratio is consulted. -/
theorem is_duplicate_of_clean_names_eq (e1 e2 : Row) (t : ℚ)
    (h : pyLower (clean_name e1.event) = pyLower (clean_name e2.event)) :
    is_duplicate e1 e2 t = true := by
  simp [is_duplicate, h]

theorem is_duplicate_of_clean_names_eq_witness :
    is_duplicate ⟨"", "AI Meetup [Tech Week]", "", "", "", ""⟩
      ⟨"", " AI MEETUP ", "", "", "", ""⟩ (7 : ℚ) = true :=
  is_duplicate_of_clean_names_eq _ _ _ (by rfl)

theorem marker_in_appended (t : String) :
    strContainsSub (t ++ " [Tech Week]") "[Tech Week]" = true := by
  have hdata : (t ++ " [Tech Week]").data = (t.data ++ [' ']) ++ ("[Tech Week]").data := by
    rw [String.data_append]
    have h2 : (" [Tech Week]").data = ' ' :: ("[Tech Week]").data := rfl
    rw [h2]
    simp
  unfold strContainsSub listContainsSub
  rw [List.any_eq_true]
  refine ⟨t.data.length + 1, ?_, ?_⟩
  · rw [List.mem_range, hdata]
    simp
  · rw [hdata]
    have hlen : t.data.length + 1 = (t.data ++ [' ']).length := by simp
    rw [hlen, List.drop_left]
    simp [List.take_length]

/-- C5: the title-attribution step is idempotent — a title that already
contains the marker is returned unchanged, so attributing twice equals
attributing once. -/
theorem attributeTitle_idempotent (t : String) :
    (strContainsSub t "[Tech Week]" = true → attributeTitle t = t)
      ∧ attributeTitle (attributeTitle t) = attributeTitle t := by
  constructor
  · intro h
    simp [attributeTitle, h]
  · by_cases h : strContainsSub t "[Tech Week]" = true
    · simp [attributeTitle, h]
    · have hb : strContainsSub t "[Tech Week]" = false := by simpa using h
      simp [attributeTitle, hb, marker_in_appended]

theorem attributeTitle_idempotent_witness :
    attributeTitle "Demo Night [Tech Week]" = "Demo Night [Tech Week]"
      ∧ attributeTitle (attributeTitle "Demo Night") = attributeTitle "Demo Night" :=
  ⟨(attributeTitle_idempotent "Demo Night [Tech Week]").1 (by rfl),
   (attributeTitle_idempotent "Demo Night").2⟩

/-- C6: the concrete sort scenario — rows dated February/14, January/3,
February/2 sort to January/3, February/2, February/14, and on write the
second February row's month column is blanked by the run-length
encoding. -/
theorem sort_and_rle_scenario :
    sort_events
        [⟨"February", "E1", "14", "", "", ""⟩,
         ⟨"January", "E2", "3", "", "", ""⟩,
         ⟨"February", "E3", "2", "", "", ""⟩] =
      [⟨"January", "E2", "3", "", "", ""⟩,
       ⟨"February", "E3", "2", "", "", ""⟩,
       ⟨"February", "E1", "14", "", "", ""⟩]
    ∧ rleRows
        (sort_events
          [⟨"February", "E1", "14", "", "", ""⟩,
           ⟨"January", "E2", "3", "", "", ""⟩,
           ⟨"February", "E3", "2", "", "", ""⟩]) none =
      [["January", "E2", "3", "", "", ""],
       ["February", "E3", "2", "", "", ""],
       ["", "E1", "14", "", "", ""]] :=
  ⟨rfl, rfl⟩

/-- C9: a missing input file yields the empty list in both scripts: the
CSV reader when the path does not exist (either filename shape), and the
HTML extractor when the source cannot be opened or read. -/
theorem missing_input_yields_empty :
    read_csv none true = [] ∧ read_csv none false = []
      ∧ parse_tech_week_html none = [] :=
  ⟨rfl, rfl, rfl⟩

/-- C10: candidates are tested only against the existing published rows,
never against candidates accepted earlier in the same run, so two
candidates that duplicate each other but no existing row both survive
the merge. -/
theorem merge_keeps_mutually_duplicate_candidates (cv tw : List Row) (c1 c2 : Row)
    (h1 : c1 ∈ tw) (h2 : c2 ∈ tw)
    (_hdup : is_duplicate c1 c2 defaultThreshold = true)
    (hn1 : ∀ e ∈ cv, is_duplicate c1 e defaultThreshold = false)
    (hn2 : ∀ e ∈ cv, is_duplicate c2 e defaultThreshold = false) :
    c1 ∈ merge_events cv tw ∧ c2 ∈ merge_events cv tw := by
  have key : ∀ c ∈ tw, (∀ e ∈ cv, is_duplicate c e defaultThreshold = false) →
      c ∈ merge_events cv tw := by
    intro c hc hn
    unfold merge_events
    refine List.mem_append_right _ ?_
    rw [List.mem_filter]
    refine ⟨hc, ?_⟩
    simp only [Bool.not_eq_true', List.any_eq_false]
    intro e he
    simp [hn e he]
  exact ⟨key c1 h1 hn1, key c2 h2 hn2⟩

theorem merge_keeps_mutually_duplicate_candidates_witness :
    (⟨"March", "AI Meetup", "March 5", "", "", ""⟩ : Row) ∈
        merge_events []
          [⟨"March", "AI Meetup", "March 5", "", "", ""⟩,
           ⟨"March", "ai meetup", "March 6", "", "", ""⟩]
      ∧ (⟨"March", "ai meetup", "March 6", "", "", ""⟩ : Row) ∈
        merge_events []
          [⟨"March", "AI Meetup", "March 5", "", "", ""⟩,
           ⟨"March", "ai meetup", "March 6", "", "", ""⟩] :=
  merge_keeps_mutually_duplicate_candidates [] _ _ _
    (by simp) (by simp) (by rfl)
    (by intro e he; cases he) (by intro e he; cases he)

/-- C1: re-reading a written file loses every event — the writer emits a
six-line banner but the published reader skips only five lines, so the
sixth banner line is consumed as the header row, no data row carries an
`Event` key, and the read returns the empty list instead of the written
events. -/
theorem published_roundtrip_loses_events :
    read_csv
        (some (write_output_csv
          [⟨"January", "AI Meetup", "January 5", "9am", "SF", "example.com"⟩]))
        true = []
      ∧ ([⟨"January", "AI Meetup", "January 5", "9am", "SF", "example.com"⟩] : List Row) ≠ [] :=
  ⟨rfl, by simp⟩

theorem scanTime_month (t : String) (s : DateScan) : (scanTime t s).month = s.month := by
  unfold scanTime
  split <;> rfl

theorem scanTime_day (t : String) (s : DateScan) : (scanTime t s).day = s.day := by
  unfold scanTime
  split <;> rfl

theorem scanMonth_time (t : String) (nxt : Option String) (s : DateScan) :
    (scanMonth t nxt s).time = s.time := by
  unfold scanMonth
  split <;> rfl

theorem scanFrags_cons (t : String) (rest : List String) (s : DateScan) :
    scanFrags (t :: rest) s = scanFrags rest (scanTime t (scanMonth t rest.head? s)) := rfl

theorem scanFrags_month_day_of_no_month (l : List String) (s : DateScan)
    (h : ∀ x ∈ l, x ∉ monthAbbrevs) :
    (scanFrags l s).month = s.month ∧ (scanFrags l s).day = s.day := by
  induction l generalizing s with
  | nil => exact ⟨rfl, rfl⟩
  | cons t rest ih =>
    have ht : t ∉ monthAbbrevs := h t (List.mem_cons_self t rest)
    have hrest : ∀ x ∈ rest, x ∉ monthAbbrevs := fun x hx => h x (List.mem_cons_of_mem _ hx)
    obtain ⟨hm, hd⟩ := ih (scanTime t (scanMonth t rest.head? s)) hrest
    have hsm : scanMonth t rest.head? s = s := by
      unfold scanMonth
      rw [if_neg ht]
    rw [scanFrags_cons]
    rw [hm, hd, scanTime_month, scanTime_day, hsm]
    exact ⟨rfl, rfl⟩

theorem scanFrags_finds_last_month (pre post : List String) (m d : String) (dv : Int)
    (s : DateScan) (hm : m ∈ monthAbbrevs) (hd : parseIntStr d = some dv)
    (hpost : ∀ x ∈ d :: post, x ∉ monthAbbrevs) :
    (scanFrags (pre ++ m :: d :: post) s).month = some m
      ∧ (scanFrags (pre ++ m :: d :: post) s).day = some dv := by
  induction pre generalizing s with
  | nil =>
    have hstep : scanMonth m (d :: post).head? s =
        { s with month := some m, day := some dv } := by
      show scanMonth m (some d) s = _
      unfold scanMonth
      rw [if_pos hm]
      simp only [hd]
    obtain ⟨hm', hd'⟩ :=
      scanFrags_month_day_of_no_month (d :: post)
        (scanTime m (scanMonth m (d :: post).head? s)) hpost
    refine ⟨?_, ?_⟩
    · rw [show (([] : List String) ++ m :: d :: post) = m :: d :: post from rfl,
        scanFrags_cons, hm', scanTime_month, hstep]
    · rw [show (([] : List String) ++ m :: d :: post) = m :: d :: post from rfl,
        scanFrags_cons, hd', scanTime_day, hstep]
  | cons p pre' ih =>
    rw [show ((p :: pre') ++ m :: d :: post) = p :: (pre' ++ m :: d :: post) from rfl,
      scanFrags_cons]
    exact ih _

theorem monthAbbrevs_nonempty_str : ∀ m ∈ monthAbbrevs, m ≠ "" := by decide

/-- C2 (amended): for a container whose filtered date-wrapper fragments
number at least three and contain a recognized 3-letter month
abbreviation — the last such occurrence — immediately followed by a
fragment parsing as a non-zero integer, the extractor's record carries
the *short* abbreviation in its month field, the string of the integer
in its day field, and the full month name only inside the derived date
field `"FullMonth day"`. -/
theorem parse_event_item_month_day (c : EventContainer) (frags : List Frag)
    (pre post : List String) (m d : String) (dv : Int)
    (hc : c.dateFrags = some frags)
    (hsplit : filterDateTexts frags = pre ++ m :: d :: post)
    (hlen : 3 ≤ (pre ++ m :: d :: post).length)
    (hm : m ∈ monthAbbrevs) (hd : parseIntStr d = some dv) (hdv : dv ≠ 0)
    (hpost : ∀ x ∈ d :: post, x ∉ monthAbbrevs) :
    (parse_event_item c).month = m ∧ (parse_event_item c).day = toString dv
      ∧ (parse_event_item c).date = month_map m ++ " " ++ toString dv := by
  obtain ⟨hsm, hsd⟩ :=
    scanFrags_finds_last_month pre post m d dv ⟨none, none, none⟩ hm hd hpost
  have hmne : m ≠ "" := monthAbbrevs_nonempty_str m hm
  have hdf : parseDateTexts (filterDateTexts frags) =
      ⟨m, toString dv, month_map m ++ " " ++ toString dv, timeOf
        ((scanFrags (pre ++ m :: d :: post) ⟨none, none, none⟩).time)⟩ := by
    rw [hsplit]
    unfold parseDateTexts
    rw [if_pos hlen]
    simp only [hsm, hsd, dayDateOf, if_pos hdv, ne_eq, hmne, not_false_eq_true, if_pos]
  unfold parse_event_item
  rw [hc]
  simp [hdf]

theorem parse_event_item_month_day_witness :
    3 ≤ ((["Mon"] : List String) ++ "Jan" :: "15" :: ["5 pm"]).length
    ∧ (parse_event_item
        ⟨"Launch Party", "", false,
         some [⟨false, "Mon"⟩, ⟨true, "Hidden"⟩, ⟨false, "Jan"⟩,
               ⟨false, "15"⟩, ⟨false, "·"⟩, ⟨false, "5 pm"⟩],
         none, none⟩).month = "Jan"
    ∧ (parse_event_item
        ⟨"Launch Party", "", false,
         some [⟨false, "Mon"⟩, ⟨true, "Hidden"⟩, ⟨false, "Jan"⟩,
               ⟨false, "15"⟩, ⟨false, "·"⟩, ⟨false, "5 pm"⟩],
         none, none⟩).day = toString (15 : Int)
    ∧ (parse_event_item
        ⟨"Launch Party", "", false,
         some [⟨false, "Mon"⟩, ⟨true, "Hidden"⟩, ⟨false, "Jan"⟩,
               ⟨false, "15"⟩, ⟨false, "·"⟩, ⟨false, "5 pm"⟩],
         none, none⟩).date = month_map "Jan" ++ " " ++ toString (15 : Int) := by
  refine ⟨by decide, ?_⟩
  exact parse_event_item_month_day _ _ ["Mon"] ["5 pm"] "Jan" "15" 15
    rfl (by rfl) (by decide) (by decide) (by rfl) (by decide) (by decide)

/-- C2 counterexample: the claim as stated is false — for the filtered
fragments `["Mon", "Jan", "15"]` the record's month field is the
abbreviation `"Jan"`, not the full name `"January"` (the full name only
reaches the derived date field). -/
theorem extractor_month_is_abbreviated :
    (parse_event_item
        ⟨"Launch Party", "", false,
         some [⟨false, "Mon"⟩, ⟨false, "Jan"⟩, ⟨false, "15"⟩],
         none, none⟩).month = "Jan"
      ∧ ("Jan" : String) ≠ "January"
      ∧ (parse_event_item
          ⟨"Launch Party", "", false,
           some [⟨false, "Mon"⟩, ⟨false, "Jan"⟩, ⟨false, "15"⟩],
           none, none⟩).date = "January 15" :=
  ⟨rfl, by decide, rfl⟩

theorem scanFrags_time (l : List String) (s : DateScan) :
    (scanFrags l s).time =
      match (l.filter containsAmPm).getLast? with
      | some t => some t
      | none => s.time := by
  induction l generalizing s with
  | nil => rfl
  | cons t rest ih =>
    rw [scanFrags_cons, ih]
    by_cases hc : containsAmPm t = true
    · rw [List.filter_cons_of_pos hc]
      have hst : (scanTime t (scanMonth t rest.head? s)).time = some t := by
        unfold scanTime
        rw [if_pos hc]
      rcases hrest : (rest.filter containsAmPm) with _ | ⟨u, L⟩
      · simp [hst]
      · rw [List.getLast?_cons_cons]
        rcases hlast : (u :: L).getLast? with _ | v
        · exact absurd hlast (by simp)
        · rfl
    · have hcf : containsAmPm t = false := by simpa using hc
      rw [List.filter_cons_of_neg (by simp [hcf])]
      have hst : (scanTime t (scanMonth t rest.head? s)).time = s.time := by
        unfold scanTime
        rw [if_neg (by simp [hcf]), scanMonth_time]
      rcases hrest : (rest.filter containsAmPm).getLast? with _ | v
      · simp [hst]
      · rfl

theorem scanFrags_month_keeps_mem (l : List String) (s : DateScan)
    (hs : ∃ m, m ∈ monthAbbrevs ∧ s.month = some m) :
    ∃ m, m ∈ monthAbbrevs ∧ (scanFrags l s).month = some m := by
  induction l generalizing s with
  | nil => exact hs
  | cons t rest ih =>
    rw [scanFrags_cons]
    apply ih
    rw [scanTime_month]
    by_cases ht : t ∈ monthAbbrevs
    · refine ⟨t, ht, ?_⟩
      unfold scanMonth
      rw [if_pos ht]
    · obtain ⟨m, hm1, hm2⟩ := hs
      refine ⟨m, hm1, ?_⟩
      unfold scanMonth
      rw [if_neg ht]
      exact hm2

theorem scanFrags_month_found (l : List String) (s : DateScan) (x : String)
    (hx : x ∈ l) (hxm : x ∈ monthAbbrevs) :
    ∃ m, m ∈ monthAbbrevs ∧ (scanFrags l s).month = some m := by
  induction l generalizing s with
  | nil => cases hx
  | cons t rest ih =>
    rw [scanFrags_cons]
    by_cases ht : t ∈ monthAbbrevs
    · apply scanFrags_month_keeps_mem
      rw [scanTime_month]
      refine ⟨t, ht, ?_⟩
      unfold scanMonth
      rw [if_pos ht]
    · have hxr : x ∈ rest := by
        rcases List.mem_cons.mp hx with h | h
        · exact absurd (h ▸ hxm) ht
        · exact h
      exact ih _ hxr

/-- C7 (amended): time extraction is *not* independent of the month — it
happens only inside the `if month:` block.  For a container whose
filtered fragments number at least three and contain a recognized month
abbreviation, the record's time is the last am/pm-containing fragment
with its spaces removed. -/
theorem parse_event_item_time (c : EventContainer) (frags : List Frag) (x t : String)
    (hc : c.dateFrags = some frags)
    (hlen : 3 ≤ (filterDateTexts frags).length)
    (hx : x ∈ filterDateTexts frags) (hxm : x ∈ monthAbbrevs)
    (ht : ((filterDateTexts frags).filter containsAmPm).getLast? = some t) :
    (parse_event_item c).time = pyReplace t " " "" := by
  obtain ⟨m, hm1, hm2⟩ := scanFrags_month_found (filterDateTexts frags) ⟨none, none, none⟩ x hx hxm
  have htime := scanFrags_time (filterDateTexts frags) ⟨none, none, none⟩
  rw [ht] at htime
  have htmem : t ∈ (filterDateTexts frags).filter containsAmPm :=
    List.mem_of_mem_getLast? (Option.mem_def.mpr ht)
  have htam : containsAmPm t = true := (List.mem_filter.mp htmem).2
  have htne : t ≠ "" := by
    intro h
    rw [h] at htam
    exact absurd htam (by decide)
  have hmne : m ≠ "" := monthAbbrevs_nonempty_str m hm1
  have hdf : (parseDateTexts (filterDateTexts frags)).time = pyReplace t " " "" := by
    unfold parseDateTexts
    rw [if_pos hlen]
    simp only [hm2, hmne, ne_eq, not_false_eq_true, if_pos, htime, timeOf, htne]
  unfold parse_event_item
  rw [hc]
  exact hdf

theorem parse_event_item_time_witness :
    (parse_event_item
        ⟨"Rooftop Mixer", "", false,
         some [⟨false, "Mon"⟩, ⟨false, "Jan"⟩, ⟨false, "8:30 am"⟩],
         none, none⟩).time = pyReplace "8:30 am" " " "" :=
  parse_event_item_time _ _ "Jan" "8:30 am" rfl (by decide) (by decide) (by decide) (by rfl)

/-- C7 counterexample: the claim as stated is false — with filtered
fragments `["Mon", "5 pm", "foo"]` there is an am/pm fragment but no
recognized month abbreviation, and the record's time stays empty instead
of `"5pm"`. -/
theorem time_dropped_without_month :
    (parse_event_item
        ⟨"Rooftop Mixer", "", false,
         some [⟨false, "Mon"⟩, ⟨false, "5 pm"⟩, ⟨false, "foo"⟩],
         none, none⟩).time = ""
      ∧ containsAmPm "5 pm" = true
      ∧ pyReplace "5 pm" " " "" = "5pm"
      ∧ ("" : String) ≠ "5pm" :=
  ⟨rfl, rfl, rfl, by decide⟩

theorem dictGet_rowToDict_month (r : Row) : dictGet (rowToDict r) "Month" = some r.month := rfl

theorem dictGet_rowToDict_event (r : Row) : dictGet (rowToDict r) "Event" = some r.event := rfl

theorem dictSet_rowToDict_month (r : Row) (v : String) :
    dictSet (rowToDict r) "Month" v = rowToDict { r with month := v } := rfl

theorem discard_eq_not_specKeeps (ev : String) :
    (ev = "" || pyStartsWith ev "Submit an event" ||
        (pyStrip ev = "" || pyStrip ev = "Cerebral Valley"))
      = !specKeeps ev := by
  unfold specKeeps
  by_cases h : ev = ""
  · subst h
    rfl
  · simp [h]

theorem readLoop_cons_rowToDict (r : Row) (ds : List Dict) (cm : String) :
    readLoop (rowToDict r :: ds) cm =
      (if specKeeps r.event then
          [rowToDict { r with month := if r.month ≠ "" then r.month else cm }]
        else []) ++ readLoop ds (if r.month ≠ "" then r.month else cm) := by
  obtain ⟨mo, ev, da, ti, lo, li⟩ := r
  simp only [readLoop, dictGet_rowToDict_month, Option.getD_some]
  rw [discard_eq_not_specKeeps]
  by_cases h1 : mo = ""
  · subst h1
    by_cases h2 : cm = ""
    · subst h2
      simp only [ne_eq, not_true_eq_false, if_false, ite_self]
      rcases hk : specKeeps ev with _ | _ <;>
        simp [hk, dictGet_rowToDict_event, Option.getD_some]
    · simp only [ne_eq, not_true_eq_false, if_false, h2, not_false_eq_true, if_true,
        dictSet_rowToDict_month]
      rcases hk : specKeeps ev with _ | _ <;>
        simp [hk, dictGet_rowToDict_event, Option.getD_some]
  · simp only [ne_eq, h1, not_false_eq_true, if_true]
    rcases hk : specKeeps ev with _ | _ <;>
      simp [hk, dictGet_rowToDict_event, Option.getD_some]

theorem readRowsSpec_cons (r : Row) (rs : List Row) (cm : String) :
    readRowsSpec (r :: rs) cm =
      (if specKeeps r.event then
          [{ r with month := if r.month ≠ "" then r.month else cm }]
        else []) ++ readRowsSpec rs (if r.month ≠ "" then r.month else cm) := rfl

/-- C8 (amended): the reader keeps exactly the rows whose `Event` does
not start with `"Submit an event"` and whose whitespace-stripped `Event`
is neither empty nor `"Cerebral Valley"` (so a padded `" Cerebral
Valley "` is discarded too, and so are whitespace-only events); every
row, kept or not, updates the running month when its month is non-empty,
and a kept row with an empty month inherits the running month. -/
theorem readLoop_matches_spec (rows : List Row) (cm : String) :
    readLoop (rows.map rowToDict) cm = (readRowsSpec rows cm).map rowToDict := by
  induction rows generalizing cm with
  | nil => rfl
  | cons r rs ih =>
    rw [List.map_cons, readLoop_cons_rowToDict, ih, readRowsSpec_cons]
    rcases hk : specKeeps r.event with _ | _ <;> simp [hk]

/-- C8 counterexample: the claim as stated is false — a row whose
`Event` is the padded `" Cerebral Valley "` is none of empty, exactly
`"Cerebral Valley"`, or a `"Submit an event"` prefix, yet the reader
discards it because the comparison happens after stripping. -/
theorem padded_placeholder_discarded :
    readLoop [rowToDict ⟨"January", " Cerebral Valley ", "March 5", "", "", ""⟩] "" = []
      ∧ (" Cerebral Valley " : String) ≠ ""
      ∧ (" Cerebral Valley " : String) ≠ "Cerebral Valley"
      ∧ pyStartsWith " Cerebral Valley " "Submit an event" = false :=
  ⟨rfl, by decide, by decide, rfl⟩
